import Mathlib

/-!
Verification of the scheduling core of `tennis_scheduler.py` (class
`TennisScheduler` and its helpers).  The Python methods are shallowly
embedded as executable Lean functions: Python lists become `List`,
`collections.Counter` becomes an association list with default value 0,
tuples become products, and the ambient `random` module becomes an
explicit shuffle parameter.  Floating point quantities (averages,
efficiency, utilization percentages) are modelled over `ℚ`.
-/

namespace TennisSched

/-- Teams are opaque string identifiers, as in the Python source. -/
abbrev Team := String

/-- A match candidate is an ordered tuple `(team1, team2)` as produced by
`itertools.combinations`; the pair is semantically unordered. -/
abbrev Pair := Team × Team

/-- `collections.Counter` / `dict` with `Nat` values: an association list in
insertion order, missing keys read as 0. -/
abbrev Counter := List (Team × Nat)

/-- `counter[t]` with Counter's default value 0. -/
def counterGet : Counter → Team → Nat
  | [], _ => 0
  | (k, v) :: rest, t => if k = t then v else counterGet rest t

/-- `counter[t] += 1`: updates an existing key in place, otherwise appends a
new key at the end (Python dict insertion order). -/
def counterIncr : Counter → Team → Counter
  | [], t => [(t, 1)]
  | (k, v) :: rest, t => if k = t then (k, v + 1) :: rest else (k, v) :: counterIncr rest t

/-- `Counter({team: 0 for team in teams})`. -/
def counterInit (teams : List Team) : Counter :=
  teams.map fun t => (t, 0)

/-- `counter.values()` in insertion order. -/
def counterValues (c : Counter) : List Nat :=
  c.map fun p => p.2

/-- Python `min(values)` with the callers' `if ... else 0` guard for the empty
case folded in (every caller guards emptiness exactly this way). -/
def minList : List Nat → Nat
  | [] => 0
  | v :: vs => vs.foldl Nat.min v

/-- Python `max(values)` with the same empty-case guard as `minList`. -/
def maxList : List Nat → Nat
  | [] => 0
  | v :: vs => vs.foldl Nat.max v

/-- Stable insertion used by `sortStable`: a new element goes after all
existing elements with a key `≤` its own, matching Python's stable sort. -/
def insertStable {α : Type} (key : α → Nat) (x : α) : List α → List α
  | [] => [x]
  | y :: ys => if key y ≤ key x then y :: insertStable key x ys else x :: y :: ys

/-- Python's stable `sorted(l, key=key)` / `l.sort(key=key)` (ascending). -/
def sortStable {α : Type} (key : α → Nat) (l : List α) : List α :=
  l.foldl (fun acc x => insertStable key x acc) []

/-- `generate_all_possible_matches`: `itertools.combinations(self.teams, 2)`
in combination order. -/
def generate_all_possible_matches : List Team → List Pair
  | [] => []
  | t :: ts => (ts.map fun u => (t, u)) ++ generate_all_possible_matches ts

/-- Greedy selection loop shared by the round builders: scan the candidate
list in order, append a candidate to the accepted list whenever `accept`
holds, updating the auxiliary state `σ`; a Python `break` once the round is
full is equivalent because every `accept` requires the round not to be full. -/
def greedyFilter {σ : Type} (accept : List Pair → σ → Pair → Bool)
    (update : σ → Pair → σ) : List Pair → List Pair × σ → List Pair × σ
  | [], st => st
  | m :: ms, st =>
    greedyFilter accept update ms
      (if accept st.1 st.2 m then (st.1 ++ [m], update st.2 m) else st)

/-! ### Time-budgeted mode -/

/-- One round of the time-budgeted schedule, `{'round': ..., 'matches': ...,
'start_time': ..., 'end_time': ...}`. -/
structure TimeRound where
  round : Nat
  matchList : List Pair
  start_time : Nat
  end_time : Nat
deriving DecidableEq

/-- The candidate pair list of `create_optimal_time_round`: nested loops over
`teams_by_count` collecting `(team1, team2)` when distinct and neither
orientation was collected yet. -/
def genPossibleMatches (ordered : List Team) : List Pair :=
  ordered.foldl (fun acc t1 =>
    ordered.foldl (fun acc2 t2 =>
      if t1 ≠ t2 ∧ (t1, t2) ∉ acc2 ∧ (t2, t1) ∉ acc2 then acc2 ++ [(t1, t2)] else acc2) acc) []

/-- `fill_remaining_time_courts`: rescan the candidate ordering, skipping
matches already in the round, still enforcing the per-team cap. -/
def fill_remaining_time_courts (possible current : List Pair) (trc : Counter)
    (courts cap : Nat) : List Pair :=
  if courts - current.length = 0 then current
  else
    (greedyFilter
      (fun r c m => decide (r.length < courts ∧ m ∉ r ∧
        counterGet c m.1 < cap ∧ counterGet c m.2 < cap))
      (fun c m => counterIncr (counterIncr c m.1) m.2) possible (current, trc)).1

/-- `create_optimal_time_round`: fairness-ordered candidates, greedy accept
under the per-team simultaneous cap, then the fill pass if under-full. -/
def create_optimal_time_round (teams : List Team) (current_counts : Counter)
    (courts cap : Nat) : List Pair :=
  let teams_by_count := sortStable (fun t => counterGet current_counts t) teams
  let possible := genPossibleMatches teams_by_count
  let possibleSorted :=
    sortStable (fun m => counterGet current_counts m.1 + counterGet current_counts m.2) possible
  let st := greedyFilter
    (fun r trc m => decide (r.length < courts ∧
      counterGet trc m.1 < cap ∧ counterGet trc m.2 < cap))
    (fun trc m => counterIncr (counterIncr trc m.1) m.2) possibleSorted ([], [])
  if st.1.length < courts then
    fill_remaining_time_courts possibleSorted st.1 st.2 courts cap
  else st.1

/-- The stats dict of `get_time_based_stats`.  `efficiency`,
`avg_games_per_team` and `court_utilization` are Python floats, modelled
exactly over `ℚ`. -/
structure TimeStats where
  total_rounds : Nat
  total_matches : Nat
  planned_duration : Nat
  actual_duration : Nat
  efficiency : ℚ
  team_counts : Counter
  avg_games_per_team : ℚ
  min_games : Nat
  max_games : Nat
  games_difference : Nat
  court_utilization : ℚ
deriving DecidableEq

/-- `get_time_based_stats`.  The second component returns the `schedule` and
`team_counts` objects as they stand after the call: the Python body only
iterates over them, so they come back untouched. -/
def get_time_based_stats (teams : List Team) (courts : Nat)
    (schedule : List TimeRound) (team_counts : Counter) (total_duration : Nat) :
    TimeStats × (List TimeRound × Counter) :=
  let total_matches := (schedule.map fun r => r.matchList.length).sum
  let actual := schedule.length * 20
  let vals := counterValues team_counts
  let mn := minList vals
  let mx := maxList vals
  (⟨schedule.length, total_matches, total_duration, actual,
    (if 0 < total_duration then (actual : ℚ) / (total_duration : ℚ) * 100 else 0),
    team_counts,
    (if teams = [] then 0 else ((vals.sum : ℚ) / (teams.length : ℚ))),
    mn, mx, mx - mn,
    (if 0 < schedule.length then
      (total_matches : ℚ) / ((schedule.length * courts : Nat) : ℚ) * 100 else 0)⟩,
   (schedule, team_counts))

/-- The round-building loop of `create_time_based_schedule`: for each round
number build a round, stamp it with its 20-minute slot, then add the accepted
matches to the running participation counts. -/
def buildTimeRounds (teams : List Team) (courts cap : Nat) :
    Counter → Nat → Nat → List TimeRound × Counter
  | counts, _, 0 => ([], counts)
  | counts, roundNum, n + 1 =>
    let rm := create_optimal_time_round teams counts courts cap
    let counts2 := rm.foldl (fun c m => counterIncr (counterIncr c m.1) m.2) counts
    let rest := buildTimeRounds teams courts cap counts2 (roundNum + 1) n
    (⟨roundNum, rm, (roundNum - 1) * 20, (roundNum - 1) * 20 + 15⟩ :: rest.1, rest.2)

/-- `create_time_based_schedule`: `max_rounds = total // 20`; zero rounds is
the "Zu wenig Zeit" failure (the spec's `InsufficientDurationError`),
otherwise exactly `max_rounds` stamped rounds plus stats. -/
def create_time_based_schedule (teams : List Team) (courts ppt minutes : Nat) :
    Except String (List TimeRound × TimeStats) :=
  let cap := ppt / 2
  let maxRounds := minutes / 20
  if maxRounds = 0 then .error "Zu wenig Zeit für mindestens eine Runde"
  else
    let res := buildTimeRounds teams courts cap (counterInit teams) 1 maxRounds
    .ok (res.1, (get_time_based_stats teams courts res.1 res.2 minutes).1)

/-! ### Round-robin mode -/

/-- The `current_opponents` dict of `fill_remaining_courts`: iterate the
matches placed so far, recording `t1 ↦ t2` and `t2 ↦ t1` (later matches
overwrite earlier entries). -/
def dictSet : List (Team × Team) → Team → Team → List (Team × Team)
  | [], k, v => [(k, v)]
  | (k1, v1) :: rest, k, v =>
    if k1 = k then (k, v) :: rest else (k1, v1) :: dictSet rest k v

/-- Python dict lookup on the opponents dict. -/
def dictLookup : List (Team × Team) → Team → Option Team
  | [], _ => none
  | (k1, v1) :: rest, a => if k1 = a then some v1 else dictLookup rest a

/-- Builds `current_opponents` from the matches placed so far. -/
def currentOpponents (current : List Pair) : List (Team × Team) :=
  current.foldl (fun d m => dictSet (dictSet d m.1 m.2) m.2 m.1) []

/-- The `can_play` test of `fill_remaining_courts`: refuse only an exact
immediate rematch as recorded in `current_opponents`. -/
def canPlay (current : List Pair) (m : Pair) : Bool :=
  let opp := currentOpponents current
  let b1 := match dictLookup opp m.1 with
    | some o => decide (o = m.2)
    | none => false
  let b2 := match dictLookup opp m.2 with
    | some o => decide (o = m.1)
    | none => false
  !(b1 || b2)

/-- `fill_remaining_courts`: collect every available match that is not
already in the round and passes `can_play`, then take the first
`remaining_slots` of them.  No per-team cap is checked here. -/
def fill_remaining_courts (available current : List Pair) (courts : Nat) : List Pair :=
  if courts - current.length = 0 then current
  else
    current ++
      (available.filter fun m => decide (m ∉ current) && canPlay current m).take
        (courts - current.length)

/-- `create_optimal_round`: greedy pass where each team may appear at most
once (`used_teams`), then the fill pass if the round is under-full. -/
def create_optimal_round (available : List Pair) (courts : Nat) : List Pair :=
  let st := greedyFilter
    (fun r used m => decide ((m.1 ∉ used ∧ m.2 ∉ used) ∧ r.length < courts))
    (fun used m => m.2 :: m.1 :: used) available ([], ([] : List Team))
  if st.1.length < courts then fill_remaining_courts available st.1 courts
  else st.1

/-- The per-round removal in `create_round_robin_schedule`: each accepted
match still in the remaining pool is removed (first occurrence). -/
def removeMatches (remaining round : List Pair) : List Pair :=
  round.foldl (fun rem m => if m ∈ rem then rem.erase m else rem) remaining

/-- The round loop of `create_round_robin_schedule`: build a round from the
remaining pool, append it, remove its matches from the pool. -/
def rrLoop (courts : Nat) : Nat → List Pair → List (List Pair)
  | 0, _ => []
  | n + 1, remaining =>
    let round := create_optimal_round remaining courts
    round :: rrLoop courts n (removeMatches remaining round)

/-- `create_round_robin_schedule`: `ceil(total / courts)` rounds consuming a
once-shuffled pair pool.  `random.shuffle` is modelled by the explicit
`shuffle` parameter. -/
def create_round_robin_schedule (teams : List Team) (courts : Nat)
    (shuffle : List Pair → List Pair) : List (List Pair) :=
  let all := generate_all_possible_matches teams
  let roundsNeeded := (all.length + courts - 1) / courts
  rrLoop courts roundsNeeded (shuffle all)

/-! ### Single-round mode -/

/-- The `while` loop of `create_single_round_distribution`: pop two teams at
a time while at least two remain and the round is not full. -/
def pairUpTeams (courts : Nat) : List Team → List Pair → List Pair
  | t1 :: t2 :: rest, acc =>
    if acc.length < courts then pairUpTeams courts rest (acc ++ [(t1, t2)]) else acc
  | _, acc => acc

/-- `create_single_round_distribution`: adjacent pairing by roster order,
then, if courts remain, supplement from the full combination list (skipping
exact duplicates only; no per-team cap is checked). -/
def create_single_round_distribution (teams : List Team) (courts : Nat) : List Pair :=
  if teams.length < 2 then []
  else
    let ms := pairUpTeams courts teams []
    if ms.length < courts ∧ 2 ≤ teams.length then
      (greedyFilter (fun r (_ : Unit) m => decide (r.length < courts ∧ m ∉ r))
        (fun u _ => u) (generate_all_possible_matches teams) (ms, ())).1
    else ms

/-! ### Participation stats -/

/-- The stats dict of `get_team_participation_stats`. -/
structure ParticipationStats where
  total_matches : Nat
  team_counts : Counter
  avg_games_per_team : ℚ
  min_games : Nat
  max_games : Nat
  games_difference : Nat
deriving DecidableEq

/-- `get_team_participation_stats`: count appearances per team over the
schedule into a fresh Counter.  The second component returns the traversed
`schedule` object after the call (read, never written). -/
def get_team_participation_stats (teams : List Team)
    (schedule : List (List Pair)) : ParticipationStats × List (List Pair) :=
  let counted := schedule.foldl (fun (st : Counter × Nat) round_matches =>
    round_matches.foldl (fun (st2 : Counter × Nat) m =>
      (counterIncr (counterIncr st2.1 m.1) m.2, st2.2 + 1)) st) ([], 0)
  let vals := counterValues counted.1
  let mn := minList vals
  let mx := maxList vals
  (⟨counted.2, counted.1,
    (if teams = [] then 0 else ((vals.sum : ℚ) / (teams.length : ℚ))),
    mn, mx, mx - mn⟩, schedule)

/-! ### Mode dispatch -/

/-- The three scheduling modes selected in `create_new_tournament`. -/
inductive Mode where
  | timeBased (totalMinutes : Nat)
  | roundRobin
  | singleRound
deriving DecidableEq

instance {ε α : Type} [DecidableEq ε] [DecidableEq α] : DecidableEq (Except ε α) := fun x y =>
  match x, y with
  | .error a, .error b =>
    if h : a = b then isTrue (by rw [h]) else isFalse (by intro hh; cases hh; exact h rfl)
  | .ok a, .ok b =>
    if h : a = b then isTrue (by rw [h]) else isFalse (by intro hh; cases hh; exact h rfl)
  | .error _, .ok _ => isFalse (by intro hh; cases hh)
  | .ok _, .error _ => isFalse (by intro hh; cases hh)

/-- The structured result handed back per mode. -/
inductive SchedulerOutput where
  | timeBased (result : Except String (List TimeRound × TimeStats))
  | roundRobin (schedule : List (List Pair))
  | singleRound (ms : List Pair)
deriving DecidableEq

/-- The mode dispatch of `create_new_tournament`: the ambient `random` module
is passed in as `rng`; only the round-robin path consults it. -/
def runScheduler (teams : List Team) (courts ppt : Nat)
    (rng : List Pair → List Pair) : Mode → SchedulerOutput
  | .timeBased m => .timeBased (create_time_based_schedule teams courts ppt m)
  | .roundRobin => .roundRobin (create_round_robin_schedule teams courts rng)
  | .singleRound => .singleRound (create_single_round_distribution teams courts)

/-- Number of matches of a round a given team takes part in (the quantity
bounded by `perTeamSimultaneousCap`). -/
def teamAppearances (round : List Pair) (t : Team) : Nat :=
  (round.filter fun m => decide (m.1 = t) || decide (m.2 = t)).length

/-! ### Helper lemmas: the greedy selection loop -/

theorem greedyFilter_sublist {σ : Type} (accept : List Pair → σ → Pair → Bool)
    (update : σ → Pair → σ) :
    ∀ (l : List Pair) (st : List Pair × σ),
      ∃ t, (greedyFilter accept update l st).1 = st.1 ++ t ∧ t.Sublist l := by
  intro l
  induction l with
  | nil => intro st; exact ⟨[], by simp [greedyFilter], List.Sublist.refl _⟩
  | cons m ms ih =>
    intro st
    by_cases h : accept st.1 st.2 m = true
    · obtain ⟨t, ht, hs⟩ := ih (st.1 ++ [m], update st.2 m)
      refine ⟨m :: t, ?_, hs.cons₂ m⟩
      simp only [greedyFilter, if_pos h]
      rw [ht, List.append_assoc]
      rfl
    · obtain ⟨t, ht, hs⟩ := ih st
      refine ⟨t, ?_, hs.cons m⟩
      simpa only [greedyFilter, if_neg h] using ht

theorem greedyFilter_inv {σ : Type} {accept : List Pair → σ → Pair → Bool}
    {update : σ → Pair → σ} (I : List Pair × σ → Prop)
    (hstep : ∀ st m, I st → accept st.1 st.2 m = true → I (st.1 ++ [m], update st.2 m)) :
    ∀ l st, I st → I (greedyFilter accept update l st) := by
  intro l
  induction l with
  | nil => intro st h; simpa [greedyFilter] using h
  | cons m ms ih =>
    intro st h
    simp only [greedyFilter]
    by_cases hc : accept st.1 st.2 m = true
    · rw [if_pos hc]; exact ih _ (hstep st m h hc)
    · rw [if_neg hc]; exact ih _ h

/-! ### Helper lemmas: the pair universe -/

/-- Structural invariant of every candidate pool handled by round-robin mode:
no duplicate tuples, no self-pairs, and never both orientations of a pair. -/
def PoolInv (l : List Pair) : Prop :=
  l.Nodup ∧ (∀ p ∈ l, p.1 ≠ p.2) ∧ ∀ p ∈ l, (p.2, p.1) ∉ l

theorem gen_mem {ts : List Team} {p : Pair} (h : p ∈ generate_all_possible_matches ts) :
    p.1 ∈ ts ∧ p.2 ∈ ts := by
  induction ts with
  | nil => simp [generate_all_possible_matches] at h
  | cons t ts ih =>
    simp only [generate_all_possible_matches, List.mem_append, List.mem_map] at h
    rcases h with ⟨u, hu, rfl⟩ | h
    · exact ⟨List.mem_cons_self .., List.mem_cons_of_mem _ hu⟩
    · exact ⟨List.mem_cons_of_mem _ (ih h).1, List.mem_cons_of_mem _ (ih h).2⟩

theorem gen_poolInv {ts : List Team} (hn : ts.Nodup) :
    PoolInv (generate_all_possible_matches ts) := by
  induction ts with
  | nil => exact ⟨List.nodup_nil, by simp [generate_all_possible_matches],
      by simp [generate_all_possible_matches]⟩
  | cons t ts ih =>
    obtain ⟨htn, htsn⟩ := List.nodup_cons.1 hn
    obtain ⟨ihn, ihself, ihrev⟩ := ih htsn
    refine ⟨?_, ?_, ?_⟩
    · refine List.Nodup.append ?_ ihn ?_
      · exact (List.nodup_map_iff (fun a b hab => by simpa using congrArg Prod.snd hab)).2 htsn
      · intro p hp hp2
        obtain ⟨u, hu, rfl⟩ := List.mem_map.1 hp
        exact htn (gen_mem hp2).1
    · intro p hp
      simp only [generate_all_possible_matches, List.mem_append, List.mem_map] at hp
      rcases hp with ⟨u, hu, rfl⟩ | hp
      · intro hc
        have h1 : t = u := hc
        exact htn (by rw [h1]; exact hu)
      · exact ihself p hp
    · intro p hp hrev
      simp only [generate_all_possible_matches, List.mem_append, List.mem_map] at hp hrev
      rcases hp with ⟨u, hu, rfl⟩ | hp
      · rcases hrev with ⟨w, hw, hweq⟩ | hrev
        · simp only [Prod.mk.injEq] at hweq
          exact htn (by rw [hweq.1]; exact hu)
        · exact htn (gen_mem hrev).2
      · rcases hrev with ⟨w, hw, hweq⟩ | hrev
        · simp only [Prod.mk.injEq] at hweq
          exact htn (by rw [hweq.1]; exact (gen_mem hp).2)
        · exact ihrev p hp hrev

theorem gen_length (ts : List Team) :
    (generate_all_possible_matches ts).length = ts.length.choose 2 := by
  induction ts with
  | nil => simp [generate_all_possible_matches]
  | cons t ts ih =>
    simp only [generate_all_possible_matches, List.length_append, List.length_map, ih,
      List.length_cons]
    rw [Nat.choose_succ_succ, Nat.choose_one_right, Nat.add_comm]

theorem gen_length_formula (ts : List Team) :
    (generate_all_possible_matches ts).length = ts.length * (ts.length - 1) / 2 := by
  rw [gen_length, Nat.choose_two_right]

/-! ### Helper lemmas: the opponents dict and the fill pass -/

theorem dictLookup_dictSet (d : List (Team × Team)) (k v a : Team) :
    dictLookup (dictSet d k v) a = if a = k then some v else dictLookup d a := by
  induction d with
  | nil =>
    simp only [dictSet, dictLookup]
    by_cases h : k = a
    · rw [if_pos h, if_pos h.symm]
    · rw [if_neg h, if_neg fun hh => h hh.symm]
  | cons kv rest ih =>
    obtain ⟨k1, v1⟩ := kv
    simp only [dictSet]
    by_cases h1 : k1 = k
    · subst h1
      rw [if_pos rfl]
      simp only [dictLookup]
      by_cases h2 : k1 = a
      · rw [if_pos h2, if_pos h2.symm]
      · rw [if_neg h2, if_neg fun hh => h2 hh.symm, if_neg h2]
    · rw [if_neg h1]
      simp only [dictLookup]
      by_cases h2 : k1 = a
      · have hak : ¬a = k := fun hh => h1 (h2.trans hh)
        rw [if_pos h2, if_neg hak, if_pos h2]
      · rw [if_neg h2, ih, if_neg h2]

theorem opponents_lookup {a b : Team} :
    ∀ (current : List Pair) (d : List (Team × Team)),
      dictLookup (current.foldl (fun d m => dictSet (dictSet d m.1 m.2) m.2 m.1) d) a = some b →
      (a, b) ∈ current ∨ (b, a) ∈ current ∨ dictLookup d a = some b := by
  intro current
  induction current with
  | nil => intro d h; exact .inr (.inr h)
  | cons m ms ih =>
    intro d h
    rcases ih _ h with h1 | h1 | h1
    · exact .inl (List.mem_cons_of_mem _ h1)
    · exact .inr (.inl (List.mem_cons_of_mem _ h1))
    · rw [dictLookup_dictSet, dictLookup_dictSet] at h1
      by_cases h2 : a = m.2
      · rw [if_pos h2] at h1
        have hb : b = m.1 := by injection h1 with hh; exact hh.symm
        refine .inr (.inl ?_)
        rw [h2, hb]
        exact List.mem_cons_self ..
      · rw [if_neg h2] at h1
        by_cases h3 : a = m.1
        · rw [if_pos h3] at h1
          have hb : b = m.2 := by injection h1 with hh; exact hh.symm
          refine .inl ?_
          rw [h3, hb]
          exact List.mem_cons_self ..
        · rw [if_neg h3] at h1
          exact .inr (.inr h1)

theorem canPlay_of_not_mem {avail current : List Pair} {m : Pair}
    (hInv : PoolInv avail) (hsub : ∀ x ∈ current, x ∈ avail)
    (hm : m ∈ avail) (hnot : m ∉ current) : canPlay current m = true := by
  obtain ⟨m1, m2⟩ := m
  have key : ∀ a b, dictLookup (currentOpponents current) a = some b →
      (a, b) ∈ current ∨ (b, a) ∈ current := by
    intro a b h
    rcases opponents_lookup current [] h with h | h | h
    · exact .inl h
    · exact .inr h
    · simp [dictLookup] at h
  have hb1 : (match dictLookup (currentOpponents current) m1 with
      | some o => decide (o = m2) | none => false) = false := by
    rcases h1 : dictLookup (currentOpponents current) m1 with _ | o
    · rfl
    · by_cases ho : o = m2
      · subst ho
        rcases key _ _ h1 with h | h
        · exact (hnot h).elim
        · exact (hInv.2.2 (m1, o) hm (hsub _ h)).elim
      · simp [ho]
  have hb2 : (match dictLookup (currentOpponents current) m2 with
      | some o => decide (o = m1) | none => false) = false := by
    rcases h1 : dictLookup (currentOpponents current) m2 with _ | o
    · rfl
    · by_cases ho : o = m1
      · subst ho
        rcases key _ _ h1 with h | h
        · exact (hInv.2.2 (o, m2) hm (hsub _ h)).elim
        · exact (hnot h).elim
      · simp [ho]
  simp only [canPlay]
  rw [hb1, hb2]
  rfl

/-! ### Helper lemmas: filtering a selection out of a nodup pool -/

theorem filter_mem_perm {l c : List Pair} (hl : l.Nodup) (hc : c.Nodup)
    (hsub : ∀ x ∈ c, x ∈ l) :
    (l.filter fun x => decide (x ∈ c)).Perm c := by
  refine (List.perm_ext_iff_of_nodup (hl.filter _) hc).2 fun a => ?_
  simp only [List.mem_filter, decide_eq_true_eq]
  exact ⟨fun h => h.2, fun h => ⟨hsub a h, h⟩⟩

theorem selection_split_perm {l c : List Pair} (hl : l.Nodup) (hc : c.Nodup)
    (hsub : ∀ x ∈ c, x ∈ l) :
    (c ++ l.filter fun x => decide (x ∉ c)).Perm l := by
  have h1 := List.filter_append_perm (fun x => decide (x ∈ c)) l
  have h2 : (l.filter fun x => !decide (x ∈ c)) = l.filter fun x => decide (x ∉ c) := by
    refine List.filter_congr fun x _ => ?_
    simp
  rw [h2] at h1
  exact ((filter_mem_perm hl hc hsub).symm.append_right _).trans h1

theorem filter_not_mem_length {l c : List Pair} (hl : l.Nodup) (hc : c.Nodup)
    (hsub : ∀ x ∈ c, x ∈ l) :
    (l.filter fun x => decide (x ∉ c)).length = l.length - c.length := by
  have := (selection_split_perm hl hc hsub).length_eq
  rw [List.length_append] at this
  omega

/-! ### Helper lemmas: one round-robin round -/

theorem greedyFilter_length_le {σ : Type} {accept : List Pair → σ → Pair → Bool}
    {update : σ → Pair → σ} {courts : Nat}
    (hacc : ∀ r s m, accept r s m = true → r.length < courts) :
    ∀ (l : List Pair) (st : List Pair × σ),
      st.1.length ≤ courts → (greedyFilter accept update l st).1.length ≤ courts := by
  intro l st h
  refine greedyFilter_inv (fun st2 => st2.1.length ≤ courts) ?_ l st h
  intro st2 m _ ha
  have := hacc _ _ _ ha
  simp only [List.length_append, List.length_cons, List.length_nil]
  omega

theorem create_optimal_round_spec (courts : Nat) {avail : List Pair}
    (hInv : PoolInv avail) :
    (create_optimal_round avail courts).Nodup
    ∧ (∀ x ∈ create_optimal_round avail courts, x ∈ avail)
    ∧ (create_optimal_round avail courts).length = min courts avail.length := by
  have hnd := hInv.1
  rw [create_optimal_round]
  obtain ⟨t, ht, hsubl⟩ := greedyFilter_sublist
    (fun r used m => decide ((m.1 ∉ used ∧ m.2 ∉ used) ∧ r.length < courts))
    (fun used m => m.2 :: m.1 :: used) avail ([], ([] : List Team))
  set st := greedyFilter
    (fun r used m => decide ((m.1 ∉ used ∧ m.2 ∉ used) ∧ r.length < courts))
    (fun used m => m.2 :: m.1 :: used) avail ([], ([] : List Team)) with hst
  rw [List.nil_append] at ht
  have hlen_le : st.1.length ≤ courts := by
    rw [hst]
    refine greedyFilter_length_le ?_ avail ([], ([] : List Team)) (by simp)
    intro r s m ha
    rw [decide_eq_true_eq] at ha
    exact ha.2
  have hnd1 : st.1.Nodup := ht ▸ hsubl.nodup hnd
  have hsub1 : ∀ x ∈ st.1, x ∈ avail := by
    intro x hx
    exact hsubl.subset (ht ▸ hx)
  have hlen1 : st.1.length ≤ avail.length := by
    rw [ht]
    exact hsubl.length_le
  by_cases hfull : st.1.length < courts
  · rw [if_pos hfull]
    rw [fill_remaining_courts]
    rw [if_neg (by omega)]
    have hcongr : (avail.filter fun m => decide (m ∉ st.1) && canPlay st.1 m)
        = avail.filter fun m => decide (m ∉ st.1) := by
      refine List.filter_congr fun m hm => ?_
      by_cases hmem : m ∈ st.1
      · simp [hmem]
      · rw [canPlay_of_not_mem hInv hsub1 hm hmem]
        simp [hmem]
    rw [hcongr]
    have hflen : (avail.filter fun m => decide (m ∉ st.1)).length
        = avail.length - st.1.length := filter_not_mem_length hnd hnd1 hsub1
    have htake : ∀ x ∈ (avail.filter fun m => decide (m ∉ st.1)).take
        (courts - st.1.length), x ∈ avail.filter fun m => decide (m ∉ st.1) :=
      fun x hx => List.mem_of_mem_take hx
    refine ⟨?_, ?_, ?_⟩
    · refine List.Nodup.append hnd1 ((hnd.filter _).sublist (List.take_sublist ..)) ?_
      intro x hx hx2
      have := List.of_mem_filter (htake x hx2)
      rw [decide_eq_true_eq] at this
      exact this hx
    · intro x hx
      rcases List.mem_append.1 hx with h | h
      · exact hsub1 x h
      · exact List.mem_of_mem_filter (htake x h)
    · rw [List.length_append, List.length_take, hflen]
      omega
  · rw [if_neg hfull]
    have : st.1.length = courts := by omega
    exact ⟨hnd1, hsub1, by omega⟩

theorem removeMatches_eq_filter :
    ∀ (round rem : List Pair), rem.Nodup → round.Nodup → (∀ x ∈ round, x ∈ rem) →
      removeMatches rem round = rem.filter fun x => decide (x ∉ round) := by
  intro round
  induction round with
  | nil =>
    intro rem _ _ _
    simp [removeMatches]
  | cons r rs ih =>
    intro rem hrem hround hsub
    obtain ⟨hr, hrs⟩ := List.nodup_cons.1 hround
    have hrmem : r ∈ rem := hsub r (List.mem_cons_self ..)
    have step : removeMatches rem (r :: rs) = removeMatches (rem.erase r) rs := by
      rw [removeMatches, removeMatches, List.foldl_cons, if_pos hrmem]
    rw [step, ih (rem.erase r) (hrem.erase r) hrs ?_]
    · rw [hrem.erase_eq_filter r, List.filter_filter]
      refine List.filter_congr fun x hx => ?_
      by_cases hxr : x = r
      · simp [hxr]
      · by_cases hxrs : x ∈ rs
        · simp [hxr, hxrs]
        · simp [hxr, hxrs, bne]
    · intro x hx
      rw [(hrem.mem_erase_iff)]
      exact ⟨fun hh => hr (hh ▸ hx), hsub x (List.mem_cons_of_mem _ hx)⟩

/-! ### Helper lemmas: the round-robin loop -/

theorem poolInv_filter {rem : List Pair} (p : Pair → Bool) (hInv : PoolInv rem) :
    PoolInv (rem.filter p) := by
  obtain ⟨h1, h2, h3⟩ := hInv
  refine ⟨h1.filter _, ?_, ?_⟩
  · exact fun q hq => h2 q (List.mem_of_mem_filter hq)
  · intro q hq hq2
    exact h3 q (List.mem_of_mem_filter hq) (List.mem_of_mem_filter hq2)

theorem rrLoop_length (courts : Nat) : ∀ (n : Nat) (rem : List Pair),
    (rrLoop courts n rem).length = n := by
  intro n
  induction n with
  | zero => intro rem; rfl
  | succ n ih => intro rem; simp only [rrLoop, List.length_cons, ih]

theorem rrLoop_flatten_perm {courts : Nat} :
    ∀ (n : Nat) (rem : List Pair), PoolInv rem → rem.length ≤ n * courts →
      ((rrLoop courts n rem).flatten).Perm rem := by
  intro n
  induction n with
  | zero =>
    intro rem _ hlen
    have : rem = [] := List.length_eq_zero.1 (by omega)
    simp [rrLoop, this]
  | succ n ih =>
    intro rem hInv hlen
    obtain ⟨hndr, hsubr, hlenr⟩ := create_optimal_round_spec courts hInv
    set round := create_optimal_round rem courts with hround
    have hrm : removeMatches rem round = rem.filter fun x => decide (x ∉ round) :=
      removeMatches_eq_filter round rem hInv.1 hndr hsubr
    have hInv2 : PoolInv (removeMatches rem round) := hrm ▸ poolInv_filter _ hInv
    have hlen2 : (removeMatches rem round).length = rem.length - round.length := by
      rw [hrm]
      exact filter_not_mem_length hInv.1 hndr hsubr
    have hbound : (removeMatches rem round).length ≤ n * courts := by
      rw [hlen2, hlenr]
      have : rem.length ≤ (n + 1) * courts := hlen
      rcases Nat.le_total rem.length courts with h | h
      · omega
      · rw [Nat.min_eq_left (by omega)] at *
        calc rem.length - courts ≤ (n + 1) * courts - courts := by omega
        _ = n * courts := by ring_nf; omega
    have hperm2 := ih (removeMatches rem round) hInv2 hbound
    show (round ++ (rrLoop courts n (removeMatches rem round)).flatten).Perm rem
    refine ((hperm2.append_left round).trans ?_)
    rw [hrm]
    exact selection_split_perm hInv.1 hndr hsubr

/-- The per-round sizes of the round-robin loop: each round takes exactly
`min courts |remaining|` matches, so the `i`-th round (0-based) has
`min courts (|pool| - i * courts)` matches. -/
theorem rrLoop_sizes {courts : Nat} :
    ∀ (n : Nat) (rem : List Pair), PoolInv rem → rem.length ≤ n * courts →
      (rrLoop courts n rem).map List.length
        = (List.range n).map fun i => min courts (rem.length - i * courts) := by
  intro n
  induction n with
  | zero => intro rem _ _; rfl
  | succ n ih =>
    intro rem hInv hlen
    obtain ⟨hndr, hsubr, hlenr⟩ := create_optimal_round_spec courts hInv
    have hrm : removeMatches rem (create_optimal_round rem courts)
        = rem.filter fun x => decide (x ∉ create_optimal_round rem courts) :=
      removeMatches_eq_filter _ rem hInv.1 hndr hsubr
    have hInv2 : PoolInv (removeMatches rem (create_optimal_round rem courts)) :=
      hrm ▸ poolInv_filter _ hInv
    have hlen2 : (removeMatches rem (create_optimal_round rem courts)).length
        = rem.length - (create_optimal_round rem courts).length := by
      rw [hrm]
      exact filter_not_mem_length hInv.1 hndr hsubr
    have hbound : (removeMatches rem (create_optimal_round rem courts)).length
        ≤ n * courts := by
      rw [hlen2, hlenr]
      have h1 : rem.length ≤ (n + 1) * courts := hlen
      rw [Nat.succ_mul] at h1
      omega
    have htail := ih _ hInv2 hbound
    show (create_optimal_round rem courts).length
        :: (rrLoop courts n (removeMatches rem (create_optimal_round rem courts))).map
            List.length
      = (List.range (n + 1)).map fun i => min courts (rem.length - i * courts)
    rw [htail]
    simp only [hlen2, hlenr]
    rw [List.range_succ_eq_map, List.map_cons, List.map_map]
    have hfe : (fun i => min courts (rem.length - min courts rem.length - i * courts))
        = ((fun i => min courts (rem.length - i * courts)) ∘ (· + 1)) := by
      funext i
      simp only [Function.comp_apply]
      rw [Nat.succ_mul]
      omega
    rw [hfe]
    simp

/-- `a ≤ ceil(a / b) * b` for `b ≥ 1`, with `ceil(a / b) = (a + b - 1) / b`. -/
theorem le_ceilDiv_mul {a b : Nat} (hb : 1 ≤ b) : a ≤ ((a + b - 1) / b) * b := by
  rcases Nat.eq_zero_or_pos a with ha | ha
  · simp [ha]
  have hmod := Nat.div_add_mod (a + b - 1) b
  have hlt : (a + b - 1) % b < b := Nat.mod_lt _ (by omega)
  set q := (a + b - 1) / b with hq
  set r := (a + b - 1) % b with hr
  have hbq : b * q = a + b - 1 - r := by omega
  calc a = a + b - 1 - (b - 1) := by omega
  _ ≤ a + b - 1 - r := by omega
  _ = b * q := hbq.symm
  _ = q * b := Nat.mul_comm ..

/-! ### Helper lemmas: time-budgeted rounds and round lengths -/

theorem buildTimeRounds_length (teams : List Team) (courts cap : Nat) :
    ∀ (n : Nat) (counts : Counter) (roundNum : Nat),
      ((buildTimeRounds teams courts cap counts roundNum n).1).length = n := by
  intro n
  induction n with
  | zero => intro counts roundNum; rfl
  | succ n ih =>
    intro counts roundNum
    simp only [buildTimeRounds, List.length_cons, ih]

theorem buildTimeRounds_times (teams : List Team) (courts cap : Nat) :
    ∀ (n : Nat) (counts : Counter) (roundNum : Nat), 1 ≤ roundNum →
      ((buildTimeRounds teams courts cap counts roundNum n).1).map
          (fun r => (r.start_time, r.end_time))
        = (List.range n).map
            fun i => ((roundNum - 1 + i) * 20, (roundNum - 1 + i) * 20 + 15) := by
  intro n
  induction n with
  | zero => intro counts roundNum _; rfl
  | succ n ih =>
    intro counts roundNum h1
    simp only [buildTimeRounds, List.map_cons]
    rw [ih _ (roundNum + 1) (by omega)]
    rw [List.range_succ_eq_map, List.map_cons, List.map_map]
    have hfe : (fun i => ((roundNum + 1 - 1 + i) * 20, (roundNum + 1 - 1 + i) * 20 + 15))
        = ((fun i => ((roundNum - 1 + i) * 20, (roundNum - 1 + i) * 20 + 15)) ∘ (· + 1)) := by
      funext i
      simp only [Function.comp_apply, Prod.mk.injEq]
      omega
    rw [hfe]
    simp

theorem create_optimal_time_round_length_le (teams : List Team) (counts : Counter)
    (courts cap : Nat) : (create_optimal_time_round teams counts courts cap).length ≤ courts := by
  rw [create_optimal_time_round]
  set possibleSorted := sortStable
    (fun m => counterGet counts m.1 + counterGet counts m.2)
    (genPossibleMatches (sortStable (fun t => counterGet counts t) teams)) with hps
  set st := greedyFilter
    (fun r trc m => decide (r.length < courts ∧
      counterGet trc m.1 < cap ∧ counterGet trc m.2 < cap))
    (fun trc m => counterIncr (counterIncr trc m.1) m.2) possibleSorted ([], []) with hstdef
  have h1 : st.1.length ≤ courts := by
    refine greedyFilter_length_le ?_ possibleSorted ([], []) (by simp)
    intro r s m ha
    rw [decide_eq_true_eq] at ha
    exact ha.1
  by_cases hfull : st.1.length < courts
  · rw [if_pos hfull, fill_remaining_time_courts]
    by_cases hz : courts - st.1.length = 0
    · rw [if_pos hz]; exact h1
    · rw [if_neg hz]
      refine greedyFilter_length_le ?_ possibleSorted (st.1, st.2) h1
      intro r s m ha
      rw [decide_eq_true_eq] at ha
      exact ha.1
  · rw [if_neg hfull]; exact h1

theorem fill_remaining_courts_length_le {available current : List Pair} {courts : Nat}
    (hcur : current.length ≤ courts) :
    (fill_remaining_courts available current courts).length ≤ courts := by
  rw [fill_remaining_courts]
  by_cases hz : courts - current.length = 0
  · rw [if_pos hz]; exact hcur
  · rw [if_neg hz]
    rw [List.length_append, List.length_take]
    omega

theorem create_optimal_round_length_le (available : List Pair) (courts : Nat) :
    (create_optimal_round available courts).length ≤ courts := by
  rw [create_optimal_round]
  set st := greedyFilter
    (fun r used m => decide ((m.1 ∉ used ∧ m.2 ∉ used) ∧ r.length < courts))
    (fun used m => m.2 :: m.1 :: used) available ([], ([] : List Team)) with hstdef
  have h1 : st.1.length ≤ courts := by
    refine greedyFilter_length_le ?_ available ([], ([] : List Team)) (by simp)
    intro r s m ha
    rw [decide_eq_true_eq] at ha
    exact ha.2
  by_cases hfull : st.1.length < courts
  · rw [if_pos hfull]
    exact fill_remaining_courts_length_le h1
  · rw [if_neg hfull]; exact h1

theorem pairUpTeams_length_le (courts : Nat) :
    ∀ (ts : List Team) (acc : List Pair), acc.length ≤ courts →
      (pairUpTeams courts ts acc).length ≤ courts
  | [], acc, h => by simpa [pairUpTeams] using h
  | [t], acc, h => by simpa [pairUpTeams] using h
  | t1 :: t2 :: rest, acc, h => by
    rw [pairUpTeams]
    by_cases hc : acc.length < courts
    · rw [if_pos hc]
      exact pairUpTeams_length_le courts rest (acc ++ [(t1, t2)])
        (by simp only [List.length_append, List.length_cons, List.length_nil]; omega)
    · rw [if_neg hc]; exact h

theorem create_single_round_distribution_length_le (teams : List Team) (courts : Nat) :
    (create_single_round_distribution teams courts).length ≤ courts := by
  rw [create_single_round_distribution]
  by_cases h2 : teams.length < 2
  · rw [if_pos h2]; simp
  · rw [if_neg h2]
    simp only []
    have hms : (pairUpTeams courts teams []).length ≤ courts :=
      pairUpTeams_length_le courts teams [] (by simp)
    by_cases hcond : (pairUpTeams courts teams []).length < courts ∧ 2 ≤ teams.length
    · rw [if_pos hcond]
      refine greedyFilter_length_le ?_ (generate_all_possible_matches teams) _ hms
      intro r s m ha
      rw [decide_eq_true_eq] at ha
      exact ha.1
    · rw [if_neg hcond]; exact hms

/-- Transfer of the pool invariant along a permutation (the shuffled pool
inherits it from the combination-ordered pair universe). -/
theorem poolInv_perm {l l2 : List Pair} (h : l.Perm l2) (hInv : PoolInv l2) : PoolInv l := by
  obtain ⟨h1, h2, h3⟩ := hInv
  refine ⟨h.nodup_iff.2 h1, ?_, ?_⟩
  · exact fun p hp => h2 p (h.mem_iff.1 hp)
  · intro p hp hp2
    exact h3 p (h.mem_iff.1 hp) (h.mem_iff.1 hp2)

/-- In a duplicate-free list, an element present occurs exactly once. -/
theorem countP_eq_one_of_nodup_mem {l : List Pair} {p : Pair} (hnd : l.Nodup)
    (hp : p ∈ l) : l.countP (fun q => decide (q = p)) = 1 := by
  induction l with
  | nil => simp at hp
  | cons a t ih =>
    obtain ⟨hat, htn⟩ := List.nodup_cons.1 hnd
    rw [List.countP_cons]
    rcases List.mem_cons.1 hp with hap | hp2
    · have hz : t.countP (fun q => decide (q = p)) = 0 := by
        rw [List.countP_eq_zero]
        intro q hq
        simp only [decide_eq_true_eq]
        intro hh
        exact hat (by rw [← hap, ← hh]; exact hq)
      rw [hz]
      simp [hap]
    · have hap : ¬a = p := fun hh => hat (by rw [hh]; exact hp2)
      rw [ih htn hp2]
      simp [hap]

/-! ### Claim theorems -/

/-- C1: the spec demands that no team exceed `perTeamSimultaneousCap =
playersPerTeam div 2` matches within any built round, in every mode
including fill passes.  The code violates this: for roster `[A, B, C, D]`,
3 courts and `playersPerTeam = 2` (cap 1), the single-round builder pairs
`(A, B)` and `(C, D)` and its fill pass then adds `(A, C)`, putting team `A`
in 2 simultaneous matches.  The round-robin fill pass likewise checks no cap
(the spec's design notes flag exactly this as a source bug). -/
theorem C1_cap_violation_eval :
    create_single_round_distribution ["A", "B", "C", "D"] 3
      = [("A", "B"), ("C", "D"), ("A", "C")]
    ∧ teamAppearances (create_single_round_distribution ["A", "B", "C", "D"] 3) "A" = 2
    ∧ ¬ teamAppearances (create_single_round_distribution ["A", "B", "C", "D"] 3) "A" ≤ 2 / 2 := by
  decide

/-- C2: for every roster of `N ≥ 2` distinct teams, `courtCapacity ≥ 1` and
any shuffle of the pair pool, round-robin mode produces exactly
`ceil(N(N-1)/2 / courtCapacity)` rounds, schedules every distinct pair at
least once, and the `i`-th round (0-based) holds exactly
`min courtCapacity (N(N-1)/2 - i * courtCapacity)` matches — so 3 teams and
1 court give 3 rounds of exactly 1 match each. -/
theorem C2_round_robin_rounds_and_coverage (teams : List Team) (courts : Nat)
    (shuffle : List Pair → List Pair) (hnd : teams.Nodup) (_hN2 : 2 ≤ teams.length)
    (hc : 1 ≤ courts)
    (hperm : (shuffle (generate_all_possible_matches teams)).Perm
      (generate_all_possible_matches teams)) :
    (create_round_robin_schedule teams courts shuffle).length
        = (teams.length * (teams.length - 1) / 2 + courts - 1) / courts
    ∧ (∀ p ∈ generate_all_possible_matches teams,
        ∃ r ∈ create_round_robin_schedule teams courts shuffle, p ∈ r)
    ∧ (create_round_robin_schedule teams courts shuffle).map List.length
        = (List.range ((teams.length * (teams.length - 1) / 2 + courts - 1) / courts)).map
            fun i => min courts (teams.length * (teams.length - 1) / 2 - i * courts) := by
  have hInv : PoolInv (shuffle (generate_all_possible_matches teams)) :=
    poolInv_perm hperm (gen_poolInv hnd)
  have hbound : (shuffle (generate_all_possible_matches teams)).length ≤
      (((generate_all_possible_matches teams).length + courts - 1) / courts) * courts := by
    rw [hperm.length_eq]
    exact le_ceilDiv_mul hc
  have hflat := rrLoop_flatten_perm
    (((generate_all_possible_matches teams).length + courts - 1) / courts)
    (shuffle (generate_all_possible_matches teams)) hInv hbound
  refine ⟨?_, ?_, ?_⟩
  · rw [create_round_robin_schedule]
    rw [rrLoop_length, gen_length_formula]
  · intro p hp
    have hp2 : p ∈ (create_round_robin_schedule teams courts shuffle).flatten := by
      rw [create_round_robin_schedule]
      exact hflat.mem_iff.2 (hperm.mem_iff.2 hp)
    obtain ⟨r, hr, hpr⟩ := List.mem_flatten.1 hp2
    exact ⟨r, hr, hpr⟩
  · have hsizes := rrLoop_sizes
      (((generate_all_possible_matches teams).length + courts - 1) / courts)
      (shuffle (generate_all_possible_matches teams)) hInv hbound
    rw [hperm.length_eq] at hsizes
    rw [gen_length_formula] at hsizes
    rw [create_round_robin_schedule]
    rw [gen_length_formula]
    exact hsizes

/-- C2 witness: 3 teams and 1 court give exactly `ceil(3/1) = 3` rounds of
exactly 1 match each, and the pair `(X, Y)` (like every pair) appears in some
round. -/
theorem C2_round_robin_rounds_and_coverage_witness :
    (create_round_robin_schedule ["X", "Y", "Z"] 1 id).length = 3
    ∧ (∃ r ∈ create_round_robin_schedule ["X", "Y", "Z"] 1 id, ("X", "Y") ∈ r)
    ∧ (create_round_robin_schedule ["X", "Y", "Z"] 1 id).map List.length = [1, 1, 1] := by
  have h := C2_round_robin_rounds_and_coverage ["X", "Y", "Z"] 1 id
    (by decide) (by decide) (by decide) (List.Perm.refl _)
  exact ⟨h.1, h.2.1 ("X", "Y") (by decide), h.2.2.trans (by decide)⟩

/-- C3: for `totalMinutes ≥ 20` the time-budgeted mode succeeds with exactly
`totalMinutes div 20` rounds, the `i`-th round (0-based) stamped with start
offset `i*20` and end offset `i*20 + 15`. -/
theorem C3_time_schedule_shape (teams : List Team) (courts ppt minutes : Nat)
    (h : 20 ≤ minutes) :
    ∃ sched stats,
      create_time_based_schedule teams courts ppt minutes = .ok (sched, stats)
      ∧ sched.length = minutes / 20
      ∧ sched.map (fun r => (r.start_time, r.end_time))
          = (List.range (minutes / 20)).map fun i => (i * 20, i * 20 + 15) := by
  have h0 : ¬ minutes / 20 = 0 := by
    rw [Nat.div_eq_zero_iff (by omega)]
    omega
  refine ⟨(buildTimeRounds teams courts (ppt / 2) (counterInit teams) 1 (minutes / 20)).1,
    (get_time_based_stats teams courts
      (buildTimeRounds teams courts (ppt / 2) (counterInit teams) 1 (minutes / 20)).1
      (buildTimeRounds teams courts (ppt / 2) (counterInit teams) 1 (minutes / 20)).2
      minutes).1, ?_, ?_, ?_⟩
  · rw [create_time_based_schedule]
    rw [if_neg h0]
  · exact buildTimeRounds_length teams courts (ppt / 2) (minutes / 20) (counterInit teams) 1
  · have := buildTimeRounds_times teams courts (ppt / 2) (minutes / 20)
      (counterInit teams) 1 le_rfl
    simpa using this

/-- C3 witness: 40 minutes give 2 rounds at offsets 0-15 and 20-35. -/
theorem C3_time_schedule_shape_witness :
    20 ≤ 40 ∧ ∃ sched stats,
      create_time_based_schedule ["A", "B"] 1 4 40 = .ok (sched, stats)
      ∧ sched.length = 40 / 20
      ∧ sched.map (fun r => (r.start_time, r.end_time))
          = (List.range (40 / 20)).map fun i => (i * 20, i * 20 + 15) :=
  ⟨by decide, C3_time_schedule_shape ["A", "B"] 1 4 40 (by decide)⟩

/-- C4: the time-budgeted mode fails, with the insufficient-duration error
and no schedule, exactly when `totalMinutes < 20`; no other input makes the
scheduling core fail. -/
theorem C4_insufficient_duration (teams : List Team) (courts ppt minutes : Nat) :
    (create_time_based_schedule teams courts ppt minutes
        = .error "Zu wenig Zeit für mindestens eine Runde" ↔ minutes < 20)
    ∧ ((∃ e, create_time_based_schedule teams courts ppt minutes = .error e)
        ↔ minutes < 20) := by
  have hiff : minutes / 20 = 0 ↔ minutes < 20 := Nat.div_eq_zero_iff (by omega)
  by_cases h : minutes / 20 = 0
  · rw [create_time_based_schedule]
    rw [if_pos h]
    constructor
    · exact ⟨fun _ => hiff.1 h, fun _ => rfl⟩
    · exact ⟨fun _ => hiff.1 h, fun _ => ⟨_, rfl⟩⟩
  · rw [create_time_based_schedule]
    rw [if_neg h]
    have hm : ¬ minutes < 20 := fun hh => h (hiff.2 hh)
    constructor
    · exact ⟨fun hh => Except.noConfusion hh, fun hh => absurd hh hm⟩
    · exact ⟨fun he => Except.noConfusion he.choose_spec, fun hh => absurd hh hm⟩

/-- C5: every round built by any of the three round builders — including
their fill passes — contains at most `courtCapacity` matches. -/
theorem C5_round_length_le_courts (teams : List Team) (counts : Counter)
    (courts cap : Nat) (available : List Pair) :
    (create_optimal_time_round teams counts courts cap).length ≤ courts
    ∧ (create_optimal_round available courts).length ≤ courts
    ∧ (create_single_round_distribution teams courts).length ≤ courts :=
  ⟨create_optimal_time_round_length_le teams counts courts cap,
   create_optimal_round_length_le available courts,
   create_single_round_distribution_length_le teams courts⟩

set_option maxRecDepth 4000 in
/-- C6: 8 teams, 4 courts, `playersPerTeam = 4`, 100 minutes: exactly 5
rounds and a participation spread `max - min` of 2, within the promised
bound of 2. -/
theorem C6_concrete_time_scenario :
    ∃ sched stats,
      create_time_based_schedule ["A", "B", "C", "D", "E", "F", "G", "H"] 4 4 100
        = .ok (sched, stats)
      ∧ sched.length = 5 ∧ stats.games_difference ≤ 2 := by
  refine ⟨_, _, rfl, ?_, ?_⟩ <;> decide

/-- C7: for a duplicate-free roster of `N ≥ 2` teams the pair universe has
exactly `N(N-1)/2` pairs, none pairing a team with itself, and no two of
them equal as unordered pairs. -/
theorem C7_pair_universe (teams : List Team) (h1 : teams.Nodup)
    (_hN2 : 2 ≤ teams.length) :
    (generate_all_possible_matches teams).length = teams.length * (teams.length - 1) / 2
    ∧ (∀ p ∈ generate_all_possible_matches teams, p.1 ≠ p.2)
    ∧ (generate_all_possible_matches teams).Pairwise fun p q => p ≠ q ∧ p ≠ (q.2, q.1) := by
  obtain ⟨hnd, hself, hrev⟩ := gen_poolInv h1
  refine ⟨gen_length_formula teams, hself, ?_⟩
  have hP2 : (generate_all_possible_matches teams).Pairwise fun p q => p ≠ (q.2, q.1) := by
    refine List.pairwise_of_forall_mem_list ?_
    intro p hp q hq heq
    exact hrev q hq (heq ▸ hp)
  exact hnd.and hP2

/-- C7 witness: the roster `[A, B, C]` satisfies the hypotheses and yields
the three distinct pairs. -/
theorem C7_pair_universe_witness :
    (["A", "B", "C"] : List Team).Nodup ∧ 2 ≤ (["A", "B", "C"] : List Team).length
    ∧ ((generate_all_possible_matches ["A", "B", "C"]).length = 3 * (3 - 1) / 2
      ∧ (∀ p ∈ generate_all_possible_matches ["A", "B", "C"], p.1 ≠ p.2)
      ∧ (generate_all_possible_matches ["A", "B", "C"]).Pairwise
          fun p q => p ≠ q ∧ p ≠ (q.2, q.1)) :=
  ⟨by decide, by decide, C7_pair_universe ["A", "B", "C"] (by decide) (by decide)⟩

/-- C8: both stats computations are pure: they hand back the traversed
schedule (and counter) unchanged, and recomputing the stats on the
handed-back state yields the identical stats record. -/
theorem C8_stats_pure_and_idempotent (teams : List Team)
    (schedule : List (List Pair)) (courts dur : Nat) (tsched : List TimeRound)
    (counts : Counter) :
    ((get_team_participation_stats teams schedule).2 = schedule
      ∧ (get_team_participation_stats teams
            (get_team_participation_stats teams schedule).2).1
          = (get_team_participation_stats teams schedule).1)
    ∧ ((get_time_based_stats teams courts tsched counts dur).2 = (tsched, counts)
      ∧ (get_time_based_stats teams courts
            (get_time_based_stats teams courts tsched counts dur).2.1
            (get_time_based_stats teams courts tsched counts dur).2.2 dur).1
          = (get_time_based_stats teams courts tsched counts dur).1) :=
  ⟨⟨rfl, rfl⟩, ⟨rfl, rfl⟩⟩

/-- C9: with the ambient randomness source made explicit, the time-budgeted
and single-round modes give identical results for any two randomness
sources, while the round-robin mode genuinely consults it (two sources are
exhibited that give different schedules). -/
theorem C9_determinism (teams : List Team) (courts ppt minutes : Nat)
    (f g : List Pair → List Pair) :
    runScheduler teams courts ppt f (.timeBased minutes)
        = runScheduler teams courts ppt g (.timeBased minutes)
    ∧ runScheduler teams courts ppt f .singleRound
        = runScheduler teams courts ppt g .singleRound
    ∧ ∃ f2 g2 : List Pair → List Pair,
        runScheduler ["X", "Y", "Z"] 1 4 f2 .roundRobin
          ≠ runScheduler ["X", "Y", "Z"] 1 4 g2 .roundRobin :=
  ⟨rfl, rfl, ⟨id, List.reverse, by decide⟩⟩

/-- C10: in round-robin mode the flattened schedule is a permutation of the
pair universe: each unordered pair is scheduled exactly once, for a total of
`N(N-1)/2` matches. -/
theorem C10_round_robin_each_pair_once (teams : List Team) (courts : Nat)
    (shuffle : List Pair → List Pair) (hnd : teams.Nodup) (_hN2 : 2 ≤ teams.length)
    (hc : 1 ≤ courts)
    (hperm : (shuffle (generate_all_possible_matches teams)).Perm
      (generate_all_possible_matches teams)) :
    ((create_round_robin_schedule teams courts shuffle).flatten).Perm
        (generate_all_possible_matches teams)
    ∧ (∀ p ∈ generate_all_possible_matches teams,
        ((create_round_robin_schedule teams courts shuffle).flatten).countP
          (fun q => decide (q = p)) = 1)
    ∧ ((create_round_robin_schedule teams courts shuffle).flatten).length
        = teams.length * (teams.length - 1) / 2 := by
  have hInv : PoolInv (shuffle (generate_all_possible_matches teams)) :=
    poolInv_perm hperm (gen_poolInv hnd)
  have hbound : (shuffle (generate_all_possible_matches teams)).length ≤
      (((generate_all_possible_matches teams).length + courts - 1) / courts) * courts := by
    rw [hperm.length_eq]
    exact le_ceilDiv_mul hc
  have hflat : ((create_round_robin_schedule teams courts shuffle).flatten).Perm
      (generate_all_possible_matches teams) := by
    rw [create_round_robin_schedule]
    exact (rrLoop_flatten_perm
      (((generate_all_possible_matches teams).length + courts - 1) / courts)
      (shuffle (generate_all_possible_matches teams)) hInv hbound).trans hperm
  refine ⟨hflat, ?_, ?_⟩
  · intro p hp
    exact (List.Perm.countP_eq _ hflat).trans
      (countP_eq_one_of_nodup_mem (gen_poolInv hnd).1 hp)
  · rw [hflat.length_eq, gen_length_formula]

/-- C10 witness: 3 teams and 2 courts (a case that exercises the fill pass)
yield a flattened schedule that is a permutation of the 3-pair universe. -/
theorem C10_round_robin_each_pair_once_witness :
    ((create_round_robin_schedule ["X", "Y", "Z"] 2 id).flatten).Perm
        (generate_all_possible_matches ["X", "Y", "Z"])
    ∧ ((create_round_robin_schedule ["X", "Y", "Z"] 2 id).flatten).length = 3 := by
  have h := C10_round_robin_each_pair_once ["X", "Y", "Z"] 2 id
    (by decide) (by decide) (by decide) (List.Perm.refl _)
  exact ⟨h.1, h.2.2⟩

end TennisSched
